import Mathlib

/-!
Shallow embedding of the MRF image filter (itkMRFImageFilter).  The repository
supplies only the class header `src/Code/Algorithms/itkMRFImageFilter.h`; the
bodies of the algorithmic methods live in `itkMRFImageFilter.txx`, which is not
part of the source tree.  Those bodies are therefore modelled from the
specification (spec.md), as marked on each definition.  Images are rectangular
N-dimensional regions; labels are natural numbers; weights, statistical
distances and the error tolerance are rationals (modelling `double`).
-/

namespace MRF

/-- An N-dimensional integer image coordinate. -/
abbrev Coord := List Int

/-- Componentwise addition of a coordinate and an offset. -/
def addC (c o : Coord) : Coord := List.zipWith (· + ·) c o

/-- Whether an offset is the all-zero (center) offset. -/
def isZeroOff (o : Coord) : Bool := o.all (· == 0)

/-- The neighborhood size implied by a per-dimension radius: Π (2·radius_d+1).
Stored as `m_NeighborhoodSize` / `m_KernelSize` in the filter. -/
def neighborhoodSize (radius : List Nat) : Nat :=
  (radius.map (fun r => 2 * r + 1)).prod

/-- Full-kernel offset enumeration for a per-dimension radius, in a fixed
lexicographic order (first dimension slowest), as used by the neighborhood
iteration primitive. -/
def offsets : List Nat → List Coord
  | [] => [[]]
  | r :: rs =>
    ((List.range (2 * r + 1)).map (fun k => Int.ofNat k - Int.ofNat r)).flatMap
      (fun v => (offsets rs).map (fun os => v :: os))

/-- Enumeration of all coordinates of a rectangular region of the given size,
in the same lexicographic order as `offsets`. -/
def coords : List Nat → List Coord
  | [] => [[]]
  | s :: ss =>
    ((List.range s).map (fun k => Int.ofNat k)).flatMap
      (fun v => (coords ss).map (fun cs => v :: cs))

/-- Bounds check of a coordinate against a region size. -/
def inBounds : List Nat → Coord → Bool
  | [], [] => true
  | s :: ss, c :: cs => decide (0 ≤ c) && decide (c < (s : Int)) && inBounds ss cs
  | _, _ => false

/-- Label stored at a coordinate of a label image represented as a list
parallel to `coords size`. -/
def labelAt (size : List Nat) (L : List Nat) (c : Coord) : Nat :=
  L.getD ((coords size).indexOf c) 0

/-- Change-status flag stored at a coordinate of the label-status image. -/
def statusAt (size : List Nat) (S : List Bool) (c : Coord) : Bool :=
  S.getD ((coords size).indexOf c) false

/-- Valid (in-bounds, non-center) portion of the neighborhood window around a
coordinate, paired with the full-kernel offset index of every entry.
`i` is the index of the first offset of the remaining kernel. -/
def windowAux (size : List Nat) (L : List Nat) (c : Coord) :
    Nat → List Coord → List (Nat × Nat)
  | _, [] => []
  | i, o :: os =>
    if !isZeroOff o && inBounds size (addC c o) then
      (i, labelAt size L (addC c o)) :: windowAux size L c (i + 1) os
    else
      windowAux size L c (i + 1) os

/-- Neighborhood window of labels around a coordinate: the valid in-bounds
neighbors together with their full-kernel offset indices. -/
def window (size radius : List Nat) (L : List Nat) (c : Coord) : List (Nat × Nat) :=
  windowAux size L c 0 (offsets radius)

/-- Modelled from the spec: the neighbor-disagreement penalty of
`DoNeighborhoodOperation` (body in itkMRFImageFilter.txx, absent from src) —
the sum over window entries of the weight at the entry's full-kernel offset
index when the neighbor's label differs from the candidate class. -/
def neighborPenalty : List (Nat × Nat) → List ℚ → Nat → ℚ
  | [], _, _ => 0
  | pr :: rest, w, cls =>
    (if pr.2 ≠ cls then w.getD pr.1 0 else 0) + neighborPenalty rest w cls

/-- Modelled from the spec: the per-class energy computed by
`DoNeighborhoodOperation`: statistical distance plus neighbor penalty. -/
def energy (win : List (Nat × Nat)) (w d : List ℚ) (cls : Nat) : ℚ :=
  d.getD cls 0 + neighborPenalty win w cls

/-- The vector of energies for the classes `0, …, n-1`
(the `m_NeighborInfluence`-updated distances). -/
def energies (n : Nat) (win : List (Nat × Nat)) (w d : List ℚ) : List ℚ :=
  (List.range n).map (energy win w d)

/-- Index of the first minimum of a list of rationals (first-seen-minimum
tie-break). -/
def firstMinIdx : List ℚ → Nat
  | [] => 0
  | [_] => 0
  | x :: y :: ys =>
    if x ≤ (y :: ys).getD (firstMinIdx (y :: ys)) 0 then 0
    else firstMinIdx (y :: ys) + 1

/-- Modelled from the spec: the class selected by `DoNeighborhoodOperation` —
the lowest-indexed class minimizing the energy. -/
def bestLabel (n : Nat) (win : List (Nat × Nat)) (w d : List ℚ) : Nat :=
  firstMinIdx (energies n win w d)

/-- The configuration of an MRF filter run: region size, neighborhood radius,
number of classes, neighbor weights, the external classifier's per-class
distances, error tolerance, and the iteration cap. -/
structure MRFParams where
  size : List Nat
  radius : List Nat
  nClasses : Nat
  weights : List ℚ
  dist : Coord → List ℚ
  tol : ℚ
  maxIter : Nat

/-- Modelled from the spec: eligibility of a coordinate for re-examination in
pass `k` — pass 1 is always fully eligible; afterwards a coordinate is
eligible when it or a neighbor within the radius changed in the previous pass
(the `m_LabelStatusImage` mechanism of itkMRFImageFilter.txx, absent
from src). -/
def eligible (p : MRFParams) (S : List Bool) (k : Nat) (c : Coord) : Bool :=
  k == 1 || statusAt p.size S c ||
    (offsets p.radius).any
      (fun o => !isZeroOff o && inBounds p.size (addC c o) && statusAt p.size S (addC c o))

/-- Modelled from the spec: `DoNeighborhoodOperation` (body in
itkMRFImageFilter.txx, absent from src) — for an eligible coordinate, select
the class minimizing the energy over the valid neighborhood window; a
non-eligible coordinate keeps its previous label. -/
def DoNeighborhoodOperation (p : MRFParams) (L : List Nat) (S : List Bool)
    (k : Nat) (c : Coord) : Nat :=
  if eligible p S k c then
    bestLabel p.nClasses (window p.size p.radius L c) p.weights (p.dist c)
  else
    labelAt p.size L c

/-- One synchronous sweep over the listed coordinates: every decision reads
only the committed labels `L` and status flags `S` of the previous pass, and
the new labels and change flags are accumulated in fresh buffers. -/
def sweepAux (p : MRFParams) (L : List Nat) (S : List Bool) (k : Nat) :
    List Coord → List Nat × List Bool
  | [] => ([], [])
  | c :: cs =>
    let nl := DoNeighborhoodOperation p L S k c
    let rest := sweepAux p L S k cs
    (nl :: rest.1, decide (nl ≠ labelAt p.size L c) :: rest.2)

/-- Modelled from the spec: `ApplyICMLabeller` (body in itkMRFImageFilter.txx,
absent from src) — one full pass of the ICM algorithm over the region,
returning the buffered new labels and change flags. -/
def ApplyICMLabeller (p : MRFParams) (k : Nat) (L : List Nat) (S : List Bool) :
    List Nat × List Bool :=
  sweepAux p L S k (coords p.size)

/-- Initial label-status image: every element eligible before pass 1. -/
def initStatus (size : List Nat) : List Bool :=
  (coords size).map (fun _ => true)

/-- Terminal outcome of a run. -/
inductive Outcome
  | converged
  | maxIterationsReached
deriving DecidableEq

/-- Observable result of a run: final labels, final change flags, number of
passes performed, and the terminal state reached. -/
structure RunResult where
  labels : List Nat
  status : List Bool
  passes : Nat
  outcome : Outcome
deriving DecidableEq

/-- Modelled from the spec: the per-pass error metric — number of changed
elements divided by the total number of valid elements. -/
def errorMetric (p : MRFParams) (S : List Bool) : ℚ :=
  ((S.count true : ℚ)) / (((coords p.size).length : ℚ))

/-- Modelled from the spec: the ICM iteration loop of `ApplyMRFImageFilter`
(body in itkMRFImageFilter.txx, absent from src).  In state `Running k` one
pass executes; then the controller converges when the error metric is within
tolerance, stops at the iteration cap when `maxIter ≤ k`, and otherwise
increments the pass index.  The fuel argument is an upper bound on the
remaining passes; `ApplyMRFImageFilter` supplies enough fuel that the first
match arm is never reached. -/
def icmLoop (p : MRFParams) : Nat → Nat → List Nat → List Bool → RunResult
  | 0, k, L, S => ⟨L, S, k, .maxIterationsReached⟩
  | fuel + 1, k, L, S =>
    let r := ApplyICMLabeller p k L S
    if errorMetric p r.2 ≤ p.tol then ⟨r.1, r.2, k, .converged⟩
    else if p.maxIter ≤ k then ⟨r.1, r.2, k, .maxIterationsReached⟩
    else icmLoop p fuel (k + 1) r.1 r.2

/-- Modelled from the spec: `ApplyMRFImageFilter` / `MinimizeFunctional` —
run the ICM controller from pass 1 on the initial labels, with every element
initially eligible. -/
def ApplyMRFImageFilter (p : MRFParams) (init : List Nat) : RunResult :=
  icmLoop p (p.maxIter + 1) 1 init (initStatus p.size)


/-- A controller state while running: current pass index and the committed
label and status images of the previous pass. -/
structure CState where
  passIdx : Nat
  labels : List Nat
  status : List Bool

/-- A controller configuration: either still running or terminated with an
observable result. -/
inductive Ctrl
  | running : CState → Ctrl
  | done : RunResult → Ctrl

/-- Modelled from the spec: the transition relation of the ICM controller
state machine.  In state `Running k` a full pass executes over the committed
images; the buffered labels and flags are committed together, and the
controller converges when the error metric is within tolerance, reaches the
iteration cap when `maxIter ≤ k`, and otherwise increments the pass index. -/
inductive Step (p : MRFParams) : Ctrl → Ctrl → Prop where
  | toConverged {k : Nat} {L : List Nat} {S : List Bool}
      (h : errorMetric p (ApplyICMLabeller p k L S).2 ≤ p.tol) :
      Step p (.running ⟨k, L, S⟩)
        (.done ⟨(ApplyICMLabeller p k L S).1, (ApplyICMLabeller p k L S).2, k, .converged⟩)
  | toMaxed {k : Nat} {L : List Nat} {S : List Bool}
      (h1 : ¬ errorMetric p (ApplyICMLabeller p k L S).2 ≤ p.tol)
      (h2 : p.maxIter ≤ k) :
      Step p (.running ⟨k, L, S⟩)
        (.done ⟨(ApplyICMLabeller p k L S).1, (ApplyICMLabeller p k L S).2, k,
          .maxIterationsReached⟩)
  | toNext {k : Nat} {L : List Nat} {S : List Bool}
      (h1 : ¬ errorMetric p (ApplyICMLabeller p k L S).2 ≤ p.tol)
      (h2 : ¬ p.maxIter ≤ k) :
      Step p (.running ⟨k, L, S⟩)
        (.running ⟨k + 1, (ApplyICMLabeller p k L S).1, (ApplyICMLabeller p k L S).2⟩)

/-- Reachability of a terminal result from a controller configuration. -/
inductive Reaches (p : MRFParams) : Ctrl → RunResult → Prop where
  | here {r : RunResult} : Reaches p (.done r) r
  | step {s t : Ctrl} {r : RunResult} : Step p s t → Reaches p t r → Reaches p s r

/-- Energy of assigning label `lab` at coordinate `c` when the surrounding
labels are those of the image `L`. -/
def energyAgainst (p : MRFParams) (L : List Nat) (c : Coord) (lab : Nat) : ℚ :=
  energy (window p.size p.radius L c) p.weights (p.dist c) lab

/-- Total energy of a label image: sum over the region of each element's
energy for its own label. -/
def totalEnergy (p : MRFParams) (L : List Nat) : ℚ :=
  ((coords p.size).map (fun c => energyAgainst p L c (labelAt p.size L c))).sum

/-- Sum over the region of the energies of the labels `Lnew` (listed in region
order) evaluated against the neighborhoods of the committed image `Lold`. -/
def sweepEnergy (p : MRFParams) (Lold Lnew : List Nat) : ℚ :=
  (List.zipWith (fun c lab => energyAgainst p Lold c lab) (coords p.size) Lnew).sum

/-- Label and status images after `n` passes of the run (pass indices start
at 1), i.e. the trajectory of the controller's committed images. -/
def runStateAfter (p : MRFParams) (init : List Nat) : Nat → List Nat × List Bool
  | 0 => (init, initStatus p.size)
  | n + 1 =>
    ApplyICMLabeller p (n + 1) (runStateAfter p init n).1 (runStateAfter p init n).2

/-- Modelled from the spec: the neighbor penalty written as a sum over the
full kernel, guarded so that exactly the valid (in-bounds, non-center)
offsets contribute, each weight looked up by its full-kernel offset index
`i`. -/
def guardedPenalty (size : List Nat) (L : List Nat) (c : Coord) (w : List ℚ)
    (cls : Nat) : Nat → List Coord → ℚ
  | _, [] => 0
  | i, o :: os =>
    (if (!isZeroOff o && inBounds size (addC c o)) = true ∧
        labelAt size L (addC c o) ≠ cls
      then w.getD i 0 else 0) + guardedPenalty size L c w cls (i + 1) os

/-- Configuration errors of the filter. -/
inductive MRFError
  | configurationError
deriving DecidableEq

/-- Modelled from the spec: `SetMRFNeighborhoodWeight` (body in
itkMRFImageFilter.txx, absent from src) — accept a weight sequence only when
its length equals the neighborhood size implied by the radius. -/
def SetMRFNeighborhoodWeight (radius : List Nat) (betaMatrix : List ℚ) :
    Except MRFError (List ℚ) :=
  if betaMatrix.length = neighborhoodSize radius then Except.ok betaMatrix
  else Except.error MRFError.configurationError

/-- Modelled from the spec: `Allocate` (body in itkMRFImageFilter.txx, absent
from src) — allocate the label buffer and the label-status buffer. -/
def Allocate (size : List Nat) (init : List Nat) : List Nat × List Bool :=
  (init, initStatus size)

/-- The filter state after successful configuration: validated weights and
the allocated label and status buffers. -/
structure ReadyState where
  weights : List ℚ
  labelBuffer : List Nat
  statusBuffer : List Bool
deriving DecidableEq

/-- Modelled from the spec: filter initialization — every configuration check
runs before the label buffers are allocated, so a configuration error leaves
no partial state. -/
def setupFilter (size radius : List Nat) (betaMatrix : List ℚ) (init : List Nat) :
    Except MRFError ReadyState :=
  match SetMRFNeighborhoodWeight radius betaMatrix with
  | Except.error e => Except.error e
  | Except.ok w => Except.ok ⟨w, (Allocate size init).1, (Allocate size init).2⟩

/-- The neighborhood-radius members of the filter
(`m_InputImageNeighborhoodRadius` and companions in the header). -/
structure FilterState where
  m_InputImageNeighborhoodRadius : List Nat
  m_LabelledImageNeighborhoodRadius : List Nat
  m_LabelStatusImageNeighborhoodRadius : List Nat

/-- `GetNeighborhoodRadius`, embedded from the header (lines 260-268): build a
radius whose component `i` is `m_InputImageNeighborhoodRadius[i]` for every
dimension `i < dim`. -/
def GetNeighborhoodRadius (s : FilterState) (dim : Nat) : List Nat :=
  (List.range dim).map (fun i => s.m_InputImageNeighborhoodRadius.getD i 0)

/-- Modelled from the spec: `SetNeighborhoodRadius` (body in
itkMRFImageFilter.txx, absent from src) — store the given per-dimension
radius in the radius members. -/
def SetNeighborhoodRadius (s : FilterState) (r : List Nat) : FilterState :=
  { s with m_InputImageNeighborhoodRadius := r,
           m_LabelledImageNeighborhoodRadius := r,
           m_LabelStatusImageNeighborhoodRadius := r }


theorem firstMinIdx_lt_length : ∀ (l : List ℚ), l ≠ [] → firstMinIdx l < l.length
  | [_], _ => Nat.zero_lt_one
  | x :: y :: ys, _ => by
    have ih := firstMinIdx_lt_length (y :: ys) (List.cons_ne_nil y ys)
    simp only [firstMinIdx]
    split
    · exact Nat.zero_lt_succ _
    · exact Nat.succ_lt_succ ih

theorem firstMinIdx_le : ∀ (l : List ℚ) (i : Nat), i < l.length →
    l.getD (firstMinIdx l) 0 ≤ l.getD i 0
  | [x], 0, _ => le_refl _
  | x :: y :: ys, i, hi => by
    simp only [firstMinIdx]
    split
    next h =>
      cases i with
      | zero => simp
      | succ i =>
        simp only [List.getD_cons_succ, List.getD_cons_zero]
        exact le_trans h (firstMinIdx_le (y :: ys) i (Nat.lt_of_succ_lt_succ hi))
    next h =>
      cases i with
      | zero =>
        simp only [List.getD_cons_succ, List.getD_cons_zero]
        exact le_of_lt (lt_of_not_le h)
      | succ i =>
        simp only [List.getD_cons_succ]
        exact firstMinIdx_le (y :: ys) i (Nat.lt_of_succ_lt_succ hi)

theorem firstMinIdx_first : ∀ (l : List ℚ) (i : Nat), i < firstMinIdx l →
    l.getD (firstMinIdx l) 0 < l.getD i 0
  | [], i, hi => absurd hi (by simp [firstMinIdx])
  | [_], i, hi => absurd hi (by simp [firstMinIdx])
  | x :: y :: ys, i, hi => by
    simp only [firstMinIdx] at hi ⊢
    split at hi
    next h => exact absurd hi (Nat.not_lt_zero i)
    next h =>
      rw [if_neg h]
      cases i with
      | zero =>
        simp only [List.getD_cons_succ, List.getD_cons_zero]
        exact lt_of_not_le h
      | succ i =>
        simp only [List.getD_cons_succ]
        exact firstMinIdx_first (y :: ys) i (Nat.lt_of_succ_lt_succ hi)

theorem energies_length (n : Nat) (win : List (Nat × Nat)) (w d : List ℚ) :
    (energies n win w d).length = n := by
  simp [energies]

theorem energies_getD {n cls : Nat} (win : List (Nat × Nat)) (w d : List ℚ)
    (h : cls < n) : (energies n win w d).getD cls 0 = energy win w d cls := by
  rw [List.getD_eq_getElem _ _ (by simpa [energies_length] using h)]
  simp [energies]

theorem bestLabel_lt {n : Nat} (win : List (Nat × Nat)) (w d : List ℚ)
    (h : 0 < n) : bestLabel n win w d < n := by
  have h1 := firstMinIdx_lt_length (energies n win w d)
    (by simp [energies, List.range_eq_nil]; omega)
  simpa [bestLabel, energies_length] using h1

theorem bestLabel_min {n cls : Nat} (win : List (Nat × Nat)) (w d : List ℚ)
    (h : cls < n) :
    energy win w d (bestLabel n win w d) ≤ energy win w d cls := by
  have h1 := firstMinIdx_le (energies n win w d) cls (by simpa [energies_length] using h)
  rw [show firstMinIdx (energies n win w d) = bestLabel n win w d from rfl,
    energies_getD win w d h,
    energies_getD win w d (bestLabel_lt win w d (Nat.zero_lt_of_lt h))] at h1
  exact h1

theorem bestLabel_firstSeen {n cls : Nat} (win : List (Nat × Nat)) (w d : List ℚ)
    (h : cls < bestLabel n win w d) (hn : bestLabel n win w d < n) :
    energy win w d (bestLabel n win w d) < energy win w d cls := by
  have h1 := firstMinIdx_first (energies n win w d) cls (by simpa [bestLabel] using h)
  rw [show firstMinIdx (energies n win w d) = bestLabel n win w d from rfl,
    energies_getD win w d hn, energies_getD win w d (lt_trans h hn)] at h1
  exact h1


theorem sweepAux_fst_getElem? (p : MRFParams) (L : List Nat) (S : List Bool) (k : Nat) :
    ∀ (cs : List Coord) (i : Nat),
    (sweepAux p L S k cs).1[i]? = (cs[i]?).map (DoNeighborhoodOperation p L S k)
  | [], i => by simp [sweepAux]
  | c :: cs, 0 => by simp [sweepAux]
  | c :: cs, i + 1 => by
    simp only [sweepAux, List.getElem?_cons_succ]
    exact sweepAux_fst_getElem? p L S k cs i

theorem sweepAux_snd_getElem? (p : MRFParams) (L : List Nat) (S : List Bool) (k : Nat) :
    ∀ (cs : List Coord) (i : Nat),
    (sweepAux p L S k cs).2[i]? =
      (cs[i]?).map (fun c => decide (DoNeighborhoodOperation p L S k c ≠ labelAt p.size L c))
  | [], i => by simp [sweepAux]
  | c :: cs, 0 => by simp [sweepAux]
  | c :: cs, i + 1 => by
    simp only [sweepAux, List.getElem?_cons_succ]
    exact sweepAux_snd_getElem? p L S k cs i

theorem sweepAux_fst_length (p : MRFParams) (L : List Nat) (S : List Bool) (k : Nat) :
    ∀ (cs : List Coord), (sweepAux p L S k cs).1.length = cs.length
  | [] => rfl
  | c :: cs => by
    simp only [sweepAux, List.length_cons]
    rw [sweepAux_fst_length p L S k cs]

theorem sweepAux_snd_length (p : MRFParams) (L : List Nat) (S : List Bool) (k : Nat) :
    ∀ (cs : List Coord), (sweepAux p L S k cs).2.length = cs.length
  | [] => rfl
  | c :: cs => by
    simp only [sweepAux, List.length_cons]
    rw [sweepAux_snd_length p L S k cs]

theorem step_deterministic {p : MRFParams} {s t t' : Ctrl}
    (h1 : Step p s t) (h2 : Step p s t') : t = t' := by
  cases h1 <;> cases h2 <;> simp_all

theorem reaches_deterministic {p : MRFParams} {c : Ctrl} {r r' : RunResult}
    (h1 : Reaches p c r) (h2 : Reaches p c r') : r = r' := by
  induction h1 with
  | here =>
    cases h2 with
    | here => rfl
    | step hs _ => exact (nomatch hs)
  | step hs hr ih =>
    cases h2 with
    | here => exact (nomatch hs)
    | step hs2 hr2 =>
      have heq := step_deterministic hs hs2
      subst heq
      exact ih hr2

theorem icmLoop_reaches (p : MRFParams) : ∀ (fuel k : Nat) (L : List Nat) (S : List Bool),
    p.maxIter ≤ k + fuel →
    Reaches p (.running ⟨k, L, S⟩) (icmLoop p (fuel + 1) k L S)
  | 0, k, L, S, hk => by
    simp only [icmLoop]
    split
    next h => exact Reaches.step (Step.toConverged h) Reaches.here
    next h =>
      split
      next h2 => exact Reaches.step (Step.toMaxed h h2) Reaches.here
      next h2 => exact absurd hk h2
  | fuel + 1, k, L, S, hk => by
    simp only [icmLoop]
    split
    next h => exact Reaches.step (Step.toConverged h) Reaches.here
    next h =>
      split
      next h2 => exact Reaches.step (Step.toMaxed h h2) Reaches.here
      next h2 =>
        exact Reaches.step (Step.toNext h h2)
          (icmLoop_reaches p fuel (k + 1) _ _ (by omega))

theorem run_reaches (p : MRFParams) (init : List Nat) :
    Reaches p (.running ⟨1, init, initStatus p.size⟩) (ApplyMRFImageFilter p init) :=
  icmLoop_reaches p p.maxIter 1 init (initStatus p.size) (by omega)

theorem icmLoop_passes_le (p : MRFParams) : ∀ (fuel k : Nat) (L : List Nat) (S : List Bool),
    (icmLoop p fuel k L S).passes ≤ max p.maxIter k
  | 0, k, L, S => Nat.le_max_right _ _
  | fuel + 1, k, L, S => by
    simp only [icmLoop]
    split
    next h => exact Nat.le_max_right _ _
    next h =>
      split
      next h2 => exact Nat.le_max_right _ _
      next h2 =>
        have hr := icmLoop_passes_le p fuel (k + 1)
          (ApplyICMLabeller p k L S).1 (ApplyICMLabeller p k L S).2
        omega

theorem run_passes_le (p : MRFParams) (init : List Nat) :
    (ApplyMRFImageFilter p init).passes ≤ max p.maxIter 1 :=
  icmLoop_passes_le p (p.maxIter + 1) 1 init (initStatus p.size)


theorem neighborPenalty_eq_sum (w : List ℚ) (cls : Nat) :
    ∀ (win : List (Nat × Nat)),
    neighborPenalty win w cls =
      (win.map (fun pr => if pr.2 ≠ cls then w.getD pr.1 0 else 0)).sum
  | [] => rfl
  | pr :: rest => by
    simp only [neighborPenalty, List.map_cons, List.sum_cons]
    rw [neighborPenalty_eq_sum w cls rest]

theorem neighborPenalty_windowAux (size : List Nat) (L : List Nat) (c : Coord)
    (w : List ℚ) (cls : Nat) : ∀ (i : Nat) (os : List Coord),
    neighborPenalty (windowAux size L c i os) w cls = guardedPenalty size L c w cls i os
  | _, [] => rfl
  | i, o :: os => by
    simp only [windowAux, guardedPenalty]
    split
    next h =>
      simp only [neighborPenalty]
      rw [neighborPenalty_windowAux size L c w cls (i + 1) os]
      by_cases hl : labelAt size L (addC c o) ≠ cls
      · rw [if_pos hl, if_pos ⟨h, hl⟩]
      · rw [if_neg hl, if_neg (fun hc => hl hc.2)]
    next h =>
      rw [if_neg (fun hc => h hc.1), zero_add]
      exact neighborPenalty_windowAux size L c w cls (i + 1) os

theorem flatMap_const_length {α β : Type} (g : α → β → β) :
    ∀ (vs : List α) (ws : List β),
    (vs.flatMap (fun v => ws.map (g v))).length = vs.length * ws.length
  | [], ws => by simp
  | v :: vs, ws => by
    simp only [List.flatMap_cons, List.length_append, List.length_map, List.length_cons]
    rw [flatMap_const_length g vs ws]
    ring

theorem offsets_length : ∀ (radius : List Nat),
    (offsets radius).length = neighborhoodSize radius
  | [] => rfl
  | r :: rs => by
    have h1 := flatMap_const_length (fun (v : Int) (os : Coord) => v :: os)
      ((List.range (2 * r + 1)).map (fun k => Int.ofNat k - Int.ofNat r)) (offsets rs)
    simp only [offsets, neighborhoodSize, List.map_cons, List.prod_cons]
    rw [h1, List.length_map, List.length_range, offsets_length rs]
    rfl

theorem coords_length : ∀ (size : List Nat),
    (coords size).length = size.prod
  | [] => rfl
  | s :: ss => by
    have h1 := flatMap_const_length (fun (v : Int) (cs : Coord) => v :: cs)
      ((List.range s).map (fun k => Int.ofNat k)) (coords ss)
    simp only [coords, List.prod_cons]
    rw [h1, List.length_map, List.length_range, coords_length ss]

theorem eligible_pass1 (p : MRFParams) (S : List Bool) (c : Coord) :
    eligible p S 1 c = true := by
  simp [eligible]

theorem sweep_energy_le (p : MRFParams) (L : List Nat) (S : List Bool) (k : Nat)
    (hL : ∀ c ∈ coords p.size, labelAt p.size L c < p.nClasses) :
    sweepEnergy p L (ApplyICMLabeller p k L S).1 ≤ totalEnergy p L := by
  unfold sweepEnergy totalEnergy ApplyICMLabeller
  have key : ∀ cs : List Coord, (∀ c ∈ cs, labelAt p.size L c < p.nClasses) →
      (List.zipWith (fun c lab => energyAgainst p L c lab) cs (sweepAux p L S k cs).1).sum
        ≤ (cs.map (fun c => energyAgainst p L c (labelAt p.size L c))).sum := by
    intro cs
    induction cs with
    | nil => simp [sweepAux]
    | cons c cs ih =>
      intro hcs
      simp only [sweepAux, List.zipWith_cons_cons, List.map_cons, List.sum_cons]
      apply add_le_add
      · unfold DoNeighborhoodOperation
        split
        · exact bestLabel_min _ _ _ (hcs c (List.mem_cons_self c cs))
        · exact le_refl _
      · exact ih (fun x hx => hcs x (List.mem_cons_of_mem c hx))
  exact key (coords p.size) hL

theorem getD_replicate_zero : ∀ (m i : Nat),
    (List.replicate m (0 : ℚ)).getD i 0 = 0
  | 0, _ => rfl
  | _ + 1, 0 => rfl
  | m + 1, i + 1 => getD_replicate_zero m i

theorem neighborPenalty_zero_weights (cls : Nat) (m : Nat) :
    ∀ (win : List (Nat × Nat)),
    neighborPenalty win (List.replicate m 0) cls = 0
  | [] => rfl
  | pr :: rest => by
    simp only [neighborPenalty]
    rw [neighborPenalty_zero_weights cls m rest, add_zero]
    split
    · exact getD_replicate_zero m pr.1
    · rfl


/-- C1: for every neighborhood window of labels, weight table and per-class
distance vector, the energy of a class `cls` equals `distances[cls]` plus the
sum over the non-center in-window neighbors of the weight at the neighbor's
full-kernel offset index when its label differs from `cls`; and the label the
pass writes for an eligible element is a class below `NumberOfClasses` whose
energy is minimal among all classes. -/
theorem c1_energy_formula_and_argmin :
    (∀ (win : List (Nat × Nat)) (w d : List ℚ) (cls : Nat),
      energy win w d cls =
        d.getD cls 0 + (win.map (fun pr => if pr.2 ≠ cls then w.getD pr.1 0 else 0)).sum)
    ∧
    (∀ (p : MRFParams) (L : List Nat) (S : List Bool) (k i : Nat),
      i < (coords p.size).length →
      eligible p S k ((coords p.size).getD i []) = true →
      0 < p.nClasses →
      ∃ lab : Nat,
        (ApplyICMLabeller p k L S).1[i]? = some lab ∧ lab < p.nClasses ∧
        ∀ cls : Nat, cls < p.nClasses →
          energy (window p.size p.radius L ((coords p.size).getD i [])) p.weights
              (p.dist ((coords p.size).getD i [])) lab
            ≤ energy (window p.size p.radius L ((coords p.size).getD i [])) p.weights
              (p.dist ((coords p.size).getD i [])) cls) := by
  constructor
  · intro win w d cls
    rw [energy, neighborPenalty_eq_sum]
  · intro p L S k i hi helig hn
    have hg : (coords p.size).getD i [] = (coords p.size)[i] :=
      List.getD_eq_getElem _ _ hi
    refine ⟨DoNeighborhoodOperation p L S k ((coords p.size).getD i []), ?_, ?_, ?_⟩
    · rw [ApplyICMLabeller, sweepAux_fst_getElem?, List.getElem?_eq_getElem hi]
      rw [hg]
      rfl
    · rw [DoNeighborhoodOperation, if_pos helig]
      exact bestLabel_lt _ _ _ hn
    · intro cls hcls
      rw [DoNeighborhoodOperation, if_pos helig]
      exact bestLabel_min _ _ _ hcls

/-- Shared concrete configuration used by the witnesses: a one-element
1-D region, two classes, unit weights, the classifier preferring class 1. -/
def tinyParams : MRFParams :=
  ⟨[1], [1], 2, [1, 1, 1], fun _ => [1, 0], 0, 1⟩

/-- Witness for C1 at a concrete input. -/
theorem c1_energy_formula_and_argmin_witness :
    ∃ lab : Nat,
      (ApplyICMLabeller tinyParams 1 [0] (initStatus tinyParams.size)).1[0]? = some lab ∧
      lab < tinyParams.nClasses ∧
      ∀ cls : Nat, cls < tinyParams.nClasses →
        energy (window tinyParams.size tinyParams.radius [0]
            ((coords tinyParams.size).getD 0 [])) tinyParams.weights
            (tinyParams.dist ((coords tinyParams.size).getD 0 [])) lab
          ≤ energy (window tinyParams.size tinyParams.radius [0]
            ((coords tinyParams.size).getD 0 [])) tinyParams.weights
            (tinyParams.dist ((coords tinyParams.size).getD 0 [])) cls :=
  c1_energy_formula_and_argmin.2 tinyParams [0] (initStatus tinyParams.size) 1 0
    (by decide) (by decide) (by decide)

/-- C2: during any pass, the new label and new change flag buffered for the
`i`-th element are computed by `DoNeighborhoodOperation` purely from the
committed label image `L` and status image `S` of the previous pass — no
element's decision observes another element's same-pass update — and a
`Running → Running` transition commits the buffered labels and flags
together. -/
theorem c2_synchronous_update :
    ∀ (p : MRFParams) (k : Nat) (L : List Nat) (S : List Bool),
      (∀ i : Nat, i < (coords p.size).length →
        (ApplyICMLabeller p k L S).1[i]? =
          some (DoNeighborhoodOperation p L S k ((coords p.size).getD i [])) ∧
        (ApplyICMLabeller p k L S).2[i]? =
          some (decide (DoNeighborhoodOperation p L S k ((coords p.size).getD i []) ≠
            labelAt p.size L ((coords p.size).getD i []))))
      ∧
      (∀ st : CState, Step p (.running ⟨k, L, S⟩) (.running st) →
        st.passIdx = k + 1 ∧ st.labels = (ApplyICMLabeller p k L S).1 ∧
          st.status = (ApplyICMLabeller p k L S).2) := by
  intro p k L S
  constructor
  · intro i hi
    have hg : (coords p.size).getD i [] = (coords p.size)[i] :=
      List.getD_eq_getElem _ _ hi
    constructor
    · rw [ApplyICMLabeller, sweepAux_fst_getElem?, List.getElem?_eq_getElem hi, hg]
      rfl
    · rw [ApplyICMLabeller, sweepAux_snd_getElem?, List.getElem?_eq_getElem hi, hg]
      rfl
  · intro st hst
    cases hst
    exact ⟨rfl, rfl, rfl⟩

/-- Witness for C2 at a concrete input. -/
theorem c2_synchronous_update_witness :
    (ApplyICMLabeller tinyParams 1 [0] (initStatus tinyParams.size)).1[0]? =
      some (DoNeighborhoodOperation tinyParams [0] (initStatus tinyParams.size) 1
        ((coords tinyParams.size).getD 0 [])) :=
  ((c2_synchronous_update tinyParams 1 [0] (initStatus tinyParams.size)).1 0 (by decide)).1

/-- C7: the energy of every element — boundary or interior — is the distance
plus a sum over exactly the valid in-bounds non-center offsets of the full
kernel, each weight looked up by its full-kernel offset index; out-of-bounds
offsets contribute nothing (no phantom neighbors), and the full kernel has
`Π (2·radius_d+1)` offsets. -/
theorem c7_boundary_energy :
    (∀ (size radius : List Nat) (L : List Nat) (w d : List ℚ) (c : Coord) (cls : Nat),
      energy (window size radius L c) w d cls =
        d.getD cls 0 + guardedPenalty size L c w cls 0 (offsets radius))
    ∧
    (∀ radius : List Nat, (offsets radius).length = neighborhoodSize radius) := by
  constructor
  · intro size radius L w d c cls
    rw [energy, window, neighborPenalty_windowAux]
  · exact offsets_length

/-- C10: `GetNeighborhoodRadius` returns, for every dimension, exactly the
stored component of `m_InputImageNeighborhoodRadius`, and composing it with
`SetNeighborhoodRadius` returns the radius that was set. -/
theorem c10_radius_roundtrip :
    (∀ (s : FilterState) (dim i : Nat), i < dim →
      (GetNeighborhoodRadius s dim).getD i 0 = s.m_InputImageNeighborhoodRadius.getD i 0)
    ∧
    (∀ (s : FilterState) (r : List Nat) (dim : Nat), r.length = dim →
      GetNeighborhoodRadius (SetNeighborhoodRadius s r) dim = r) := by
  constructor
  · intro s dim i hi
    rw [GetNeighborhoodRadius, List.getD_eq_getElem _ _ (by simpa using hi)]
    simp
  · intro s r dim hdim
    subst hdim
    rw [GetNeighborhoodRadius]
    apply List.ext_getElem
    · simp
    · intro i h1 h2
      simp only [SetNeighborhoodRadius, List.getElem_map, List.getElem_range]
      exact List.getD_eq_getElem r 0 h2

/-- Witness for C10 at a concrete input. -/
theorem c10_radius_roundtrip_witness :
    GetNeighborhoodRadius (SetNeighborhoodRadius ⟨[1], [1], [1]⟩ [2, 2]) 2 = [2, 2] :=
  c10_radius_roundtrip.2 ⟨[1], [1], [1]⟩ [2, 2] 2 rfl


/-- C3 (amended): after each pass the error metric is the changed count over
the total element count; from `Running k` the controller converges exactly
when the error metric is within tolerance, reaches the cap exactly when
otherwise `maxIter ≤ k`, and otherwise runs another pass; a run configured
with `MaximumNumberOfIterations = 1` whose first pass stays above tolerance
performs exactly one pass and ends in `MaxIterationsReached`; and every run
performs at most `max MaximumNumberOfIterations 1` passes (a run with the cap
set to `0` still performs the one pass of state `Running 1`). -/
theorem c3_iteration_control :
    (∀ (p : MRFParams) (S : List Bool),
      errorMetric p S = ((S.count true : ℚ)) / (((coords p.size).length : ℚ)))
    ∧
    (∀ (p : MRFParams) (k : Nat) (L : List Nat) (S : List Bool) (c : Ctrl),
      Step p (.running ⟨k, L, S⟩) c ↔
        ((errorMetric p (ApplyICMLabeller p k L S).2 ≤ p.tol ∧
            c = .done ⟨(ApplyICMLabeller p k L S).1, (ApplyICMLabeller p k L S).2, k,
              .converged⟩) ∨
         (¬ errorMetric p (ApplyICMLabeller p k L S).2 ≤ p.tol ∧ p.maxIter ≤ k ∧
            c = .done ⟨(ApplyICMLabeller p k L S).1, (ApplyICMLabeller p k L S).2, k,
              .maxIterationsReached⟩) ∨
         (¬ errorMetric p (ApplyICMLabeller p k L S).2 ≤ p.tol ∧ ¬ p.maxIter ≤ k ∧
            c = .running ⟨k + 1, (ApplyICMLabeller p k L S).1,
              (ApplyICMLabeller p k L S).2⟩)))
    ∧
    (∀ (p : MRFParams) (init : List Nat),
      p.maxIter = 1 →
      ¬ errorMetric p (ApplyICMLabeller p 1 init (initStatus p.size)).2 ≤ p.tol →
      ApplyMRFImageFilter p init =
        ⟨(ApplyICMLabeller p 1 init (initStatus p.size)).1,
         (ApplyICMLabeller p 1 init (initStatus p.size)).2, 1, .maxIterationsReached⟩)
    ∧
    (∀ (p : MRFParams) (init : List Nat),
      (ApplyMRFImageFilter p init).passes ≤ max p.maxIter 1) := by
  refine ⟨fun p S => rfl, ?_, ?_, fun p init => run_passes_le p init⟩
  · intro p k L S c
    constructor
    · intro hst
      cases hst with
      | toConverged h => exact Or.inl ⟨h, rfl⟩
      | toMaxed h1 h2 => exact Or.inr (Or.inl ⟨h1, h2, rfl⟩)
      | toNext h1 h2 => exact Or.inr (Or.inr ⟨h1, h2, rfl⟩)
    · intro hc
      rcases hc with ⟨h, rfl⟩ | ⟨h1, h2, rfl⟩ | ⟨h1, h2, rfl⟩
      · exact Step.toConverged h
      · exact Step.toMaxed h1 h2
      · exact Step.toNext h1 h2
  · intro p init hm herr
    rw [ApplyMRFImageFilter, hm]
    simp only [icmLoop]
    rw [if_neg herr, if_pos (le_of_eq hm)]

/-- Witness for the amended C3 at a concrete input: with the cap at 1 and an
out-of-tolerance first pass, exactly one pass runs. -/
theorem c3_iteration_control_witness :
    ApplyMRFImageFilter tinyParams [0] =
      ⟨(ApplyICMLabeller tinyParams 1 [0] (initStatus tinyParams.size)).1,
       (ApplyICMLabeller tinyParams 1 [0] (initStatus tinyParams.size)).2, 1,
       .maxIterationsReached⟩ :=
  c3_iteration_control.2.2.1 tinyParams [0] rfl (by with_unfolding_all decide)

/-- A configuration with `MaximumNumberOfIterations = 0`: a one-element
region whose classifier prefers class 1 while the initial label is 0, with
zero tolerance, so the first pass changes the element and stays above
tolerance. -/
def zeroCapParams : MRFParams :=
  ⟨[1], [1], 2, [1, 1, 1], fun _ => [1, 0], 0, 0⟩

/-- C3 counterexample: the spec's controller runs the sweep of state
`Running 1` before evaluating any transition, so with
`MaximumNumberOfIterations = 0` the run still performs one pass — the claim
that every run performs at most `MaximumNumberOfIterations` passes fails. -/
theorem c3_zero_cap_counterexample :
    (ApplyMRFImageFilter zeroCapParams [0]).passes = 1 ∧
    ¬ (ApplyMRFImageFilter zeroCapParams [0]).passes ≤ zeroCapParams.maxIter := by
  with_unfolding_all decide


/-- C4: pass 1 examines every element regardless of tracker state; on a later
pass an element is eligible exactly when it or an in-bounds neighbor within
the radius changed in the previous pass; an excluded element is skipped — its
label is kept and its flag stays unchanged — while an eligible element is
re-evaluated through the energy minimization. -/
theorem c4_eligibility_rule :
    (∀ (p : MRFParams) (S : List Bool) (c : Coord), eligible p S 1 c = true)
    ∧
    (∀ (p : MRFParams) (S : List Bool) (k : Nat) (c : Coord), k ≠ 1 →
      (eligible p S k c = true ↔
        statusAt p.size S c = true ∨
        ∃ o ∈ offsets p.radius, isZeroOff o = false ∧
          inBounds p.size (addC c o) = true ∧ statusAt p.size S (addC c o) = true))
    ∧
    (∀ (p : MRFParams) (L : List Nat) (S : List Bool) (k i : Nat),
      i < (coords p.size).length →
      eligible p S k ((coords p.size).getD i []) = false →
      (ApplyICMLabeller p k L S).1[i]? =
        some (labelAt p.size L ((coords p.size).getD i [])) ∧
      (ApplyICMLabeller p k L S).2[i]? = some false)
    ∧
    (∀ (p : MRFParams) (L : List Nat) (S : List Bool) (k i : Nat),
      i < (coords p.size).length →
      eligible p S k ((coords p.size).getD i []) = true →
      (ApplyICMLabeller p k L S).1[i]? =
        some (bestLabel p.nClasses
          (window p.size p.radius L ((coords p.size).getD i []))
          p.weights (p.dist ((coords p.size).getD i [])))) := by
  refine ⟨eligible_pass1, ?_, ?_, ?_⟩
  · intro p S k c hk
    have hk1 : (k == 1) = false := by simpa using hk
    simp [eligible, hk1, List.any_eq_true, Bool.and_eq_true, and_assoc]
  · intro p L S k i hi helig
    have hg : (coords p.size).getD i [] = (coords p.size)[i] :=
      List.getD_eq_getElem _ _ hi
    have hne : DoNeighborhoodOperation p L S k ((coords p.size).getD i []) =
        labelAt p.size L ((coords p.size).getD i []) := by
      rw [DoNeighborhoodOperation, if_neg (by simp only [helig]; simp)]
    constructor
    · rw [ApplyICMLabeller, sweepAux_fst_getElem?, List.getElem?_eq_getElem hi, ← hg,
        Option.map_some', hne]
    · rw [ApplyICMLabeller, sweepAux_snd_getElem?, List.getElem?_eq_getElem hi, ← hg,
        Option.map_some', hne]
      simp
  · intro p L S k i hi helig
    have hg : (coords p.size).getD i [] = (coords p.size)[i] :=
      List.getD_eq_getElem _ _ hi
    rw [ApplyICMLabeller, sweepAux_fst_getElem?, List.getElem?_eq_getElem hi, ← hg,
      Option.map_some', DoNeighborhoodOperation, if_pos helig]

/-- Witness for C4 at a concrete input: a single-element region whose element
did not change and has no in-bounds neighbor, on pass 2. -/
theorem c4_eligibility_rule_witness :
    (ApplyICMLabeller tinyParams 2 [1] [false]).1[0]? =
      some (labelAt tinyParams.size [1] ((coords tinyParams.size).getD 0 [])) ∧
    (ApplyICMLabeller tinyParams 2 [1] [false]).2[0]? = some false :=
  c4_eligibility_rule.2.2.1 tinyParams [1] [false] 2 0 (by decide) (by decide)

/-- C5 (amended): each element's selected label minimizes its energy with
respect to the previous pass's committed labels, so the region sum of the new
labels' energies evaluated against the previous pass's neighborhoods never
exceeds the previous total energy — but the total energy recomputed after the
synchronous commit may increase (see the counterexample). -/
theorem c5_local_energy_decrease :
    ∀ (p : MRFParams) (L : List Nat) (S : List Bool) (k : Nat),
      (∀ c ∈ coords p.size, labelAt p.size L c < p.nClasses) →
      sweepEnergy p L (ApplyICMLabeller p k L S).1 ≤ totalEnergy p L :=
  fun p L S k hL => sweep_energy_le p L S k hL

/-- A two-element 1-D configuration whose classifier prefers the opposite of
each element's current label more weakly than the neighbor weight: the
synchronous ICM update makes the pair swap labels forever. -/
def oscillatingParams : MRFParams :=
  ⟨[2], [1], 2, [2, 2, 2], fun c => if c = [(0 : Int)] then [0, 1] else [1, 0], 0, 3⟩

/-- Witness for the amended C5 at a concrete input. -/
theorem c5_local_energy_decrease_witness :
    sweepEnergy oscillatingParams [0, 1]
      (ApplyICMLabeller oscillatingParams 1 [0, 1] (initStatus oscillatingParams.size)).1
      ≤ totalEnergy oscillatingParams [0, 1] :=
  c5_local_energy_decrease oscillatingParams [0, 1]
    (initStatus oscillatingParams.size) 1 (by decide)

/-- C5 counterexample: in the oscillating configuration the run performs
three passes, the trajectory after pass 3 is the run's own final label image,
and the total energy strictly increases from pass 2 to pass 3 — the claimed
pass-over-pass non-increase of total energy fails under the synchronous
update. -/
theorem c5_energy_increase_counterexample :
    (ApplyMRFImageFilter oscillatingParams [0, 1]).passes = 3 ∧
    (runStateAfter oscillatingParams [0, 1] 3).1 =
      (ApplyMRFImageFilter oscillatingParams [0, 1]).labels ∧
    totalEnergy oscillatingParams (runStateAfter oscillatingParams [0, 1] 2).1 <
      totalEnergy oscillatingParams (runStateAfter oscillatingParams [0, 1] 3).1 := by
  with_unfolding_all decide

/-- C6: whenever a class has minimal energy, the selected class has an index
not above it (so on ties the lowest index wins); and in a two-class scenario
with all distances zero and all weights zero, class 0 is chosen for every
element of pass 1. -/
theorem c6_tie_break :
    (∀ (n : Nat) (win : List (Nat × Nat)) (w d : List ℚ) (cls : Nat),
      cls < n →
      (∀ cls2, cls2 < n → energy win w d cls ≤ energy win w d cls2) →
      bestLabel n win w d ≤ cls)
    ∧
    (∀ (p : MRFParams) (L : List Nat) (S : List Bool) (c : Coord) (m : Nat),
      p.nClasses = 2 → p.weights = List.replicate m 0 → p.dist = (fun _ => [0, 0]) →
      DoNeighborhoodOperation p L S 1 c = 0) := by
  constructor
  · intro n win w d cls hcls hmin
    by_contra hgt
    push_neg at hgt
    have hbl : bestLabel n win w d < n := bestLabel_lt win w d (Nat.zero_lt_of_lt hcls)
    have h1 := bestLabel_firstSeen win w d hgt hbl
    exact absurd (hmin (bestLabel n win w d) hbl) (not_le_of_lt h1)
  · intro p L S c m h2 hw hd
    rw [DoNeighborhoodOperation, if_pos (eligible_pass1 p S c), h2, hw, hd]
    have he : ∀ cls : Nat,
        energy (window p.size p.radius L c) (List.replicate m 0) [0, 0] cls =
          (([0, 0] : List ℚ)).getD cls 0 := by
      intro cls
      rw [energy, neighborPenalty_zero_weights, add_zero]
    have hr : energies 2 (window p.size p.radius L c) (List.replicate m 0) [0, 0] =
        [energy (window p.size p.radius L c) (List.replicate m 0) [0, 0] 0,
         energy (window p.size p.radius L c) (List.replicate m 0) [0, 0] 1] := rfl
    rw [bestLabel, hr, he 0, he 1]
    show firstMinIdx [0, 0] = 0
    rw [firstMinIdx]
    simp [firstMinIdx]

/-- Witness for C6 at a concrete input. -/
theorem c6_tie_break_witness :
    bestLabel 2 [] [] [(0 : ℚ), 0] ≤ 0 :=
  c6_tie_break.1 2 [] [] [(0 : ℚ), 0] 0 (by decide) (by with_unfolding_all decide)


/-- C8: configuring the neighborhood weights fails with a configuration error
exactly when the sequence length differs from `Π (2·radius_d+1)`; filter
setup propagates the error before anything is built, and a successful setup
implies the length was valid and the buffers are exactly the freshly
allocated ones — no partial state accompanies an error. -/
theorem c8_weight_validation :
    (∀ (radius : List Nat) (betaMatrix : List ℚ),
      SetMRFNeighborhoodWeight radius betaMatrix =
          Except.error MRFError.configurationError ↔
        betaMatrix.length ≠ neighborhoodSize radius)
    ∧
    (∀ (size radius : List Nat) (betaMatrix : List ℚ) (init : List Nat),
      betaMatrix.length ≠ neighborhoodSize radius →
      setupFilter size radius betaMatrix init =
        Except.error MRFError.configurationError)
    ∧
    (∀ (size radius : List Nat) (betaMatrix : List ℚ) (init : List Nat)
      (rs : ReadyState),
      setupFilter size radius betaMatrix init = Except.ok rs →
      betaMatrix.length = neighborhoodSize radius ∧
        rs = ⟨betaMatrix, (Allocate size init).1, (Allocate size init).2⟩) := by
  refine ⟨?_, ?_, ?_⟩
  · intro radius beta
    rw [SetMRFNeighborhoodWeight]
    split
    next h => simp [h]
    next h => simp [h]
  · intro size radius beta init hne
    rw [setupFilter, SetMRFNeighborhoodWeight, if_neg hne]
  · intro size radius beta init rs h
    by_cases hb : beta.length = neighborhoodSize radius
    · rw [setupFilter, SetMRFNeighborhoodWeight, if_pos hb] at h
      refine ⟨hb, ?_⟩
      cases h
      rfl
    · rw [setupFilter, SetMRFNeighborhoodWeight, if_neg hb] at h
      exact (nomatch h)

/-- Witness for C8 at a concrete input: an empty weight sequence against a
radius-1 1-D kernel of size 3. -/
theorem c8_weight_validation_witness :
    setupFilter [2] [1] [] [0, 0] = Except.error MRFError.configurationError :=
  c8_weight_validation.2.1 [2] [1] [] [0, 0] (by decide)

/-- C9: the controller's transition relation is deterministic, so any two
runs from the same initial labels under the same configuration reach the same
terminal result — bit-identical final label images and identical pass
counts. -/
theorem c9_determinism :
    ∀ (p : MRFParams) (init : List Nat) (r r' : RunResult),
      Reaches p (.running ⟨1, init, initStatus p.size⟩) r →
      Reaches p (.running ⟨1, init, initStatus p.size⟩) r' →
      r.labels = r'.labels ∧ r.passes = r'.passes ∧ r = r' := by
  intro p init r r' h1 h2
  have heq := reaches_deterministic h1 h2
  subst heq
  exact ⟨rfl, rfl, rfl⟩

/-- Witness for C9 at a concrete input, via the run function's reachability. -/
theorem c9_determinism_witness :
    (ApplyMRFImageFilter tinyParams [0]).labels =
        (ApplyMRFImageFilter tinyParams [0]).labels ∧
      (ApplyMRFImageFilter tinyParams [0]).passes =
        (ApplyMRFImageFilter tinyParams [0]).passes ∧
      ApplyMRFImageFilter tinyParams [0] = ApplyMRFImageFilter tinyParams [0] :=
  c9_determinism tinyParams [0] _ _ (run_reaches tinyParams [0])
    (run_reaches tinyParams [0])

end MRF
